import Mathlib

/-!
Verification of the per-chat conversation history manager and response
generation contract of `assistant_bot.py`.

The Python module keeps a process-wide dict `conversations` mapping a chat
identifier to a list of `{"role": ..., "content": ...}` dicts.  We embed:

* a turn record (`Turn`) for the role/content message dicts;
* the configuration record (`Config`) with the fields the history logic and
  the message handler read (`SYSTEM_PROMPT`, `MAX_HISTORY`,
  `RESPONDING_TO_OTHERS`), and the concrete `CONFIG` value of the source;
* the `conversations` dict as an association list with Python-dict
  semantics (`dictLookup` / `dictInsert`: insert replaces an existing key in
  place, otherwise appends);
* the helper functions `get_conversation_history`,
  `update_conversation_history`, `clear_conversation_history` as state
  passing functions (Python mutates the dict; here each returns the new
  dict, and `get` returns the looked-up history together with the possibly
  extended dict);
* `generate_ai_response` over the outcome of the external completion call
  (an `Except`, since any exception is caught by the surrounding `try`);
* `handle_message` with its observable effects (typing actions, replies,
  and the histories passed to the completion call) recorded explicitly.
-/

/-- One message dict `{"role": r, "content": c}` of the Python source. -/
structure Turn where
  role : String
  content : String
deriving DecidableEq

/-- The fields of the source's `CONFIG` dict read by the embedded logic. -/
structure Config where
  SYSTEM_PROMPT : String
  MAX_HISTORY : Nat
  RESPONDING_TO_OTHERS : Bool
deriving DecidableEq

/-- The concrete `CONFIG` values of `assistant_bot.py` (lines 34-49). -/
def CONFIG : Config :=
  ⟨"You are a helpful assistant. Respond concisely and helpfully.", 10, true⟩

/-- The pinned system turn `{"role": "system", "content": CONFIG["SYSTEM_PROMPT"]}`. -/
def systemTurn (cfg : Config) : Turn :=
  ⟨"system", cfg.SYSTEM_PROMPT⟩

/-- The `conversations` dict, as an association list from chat id to history. -/
abbrev Convs := List (Int × List Turn)

/-- Python dict read: `conversations[chat_id]` guarded by `chat_id in conversations`. -/
def dictLookup : Convs → Int → Option (List Turn)
  | [], _ => none
  | (k, v) :: rest, chat => if chat = k then some v else dictLookup rest chat

/-- Python dict write `conversations[chat_id] = h`: replaces the value of an
existing key, otherwise appends the new key (dicts keep insertion order). -/
def dictInsert : Convs → Int → List Turn → Convs
  | [], chat, h => [(chat, h)]
  | (k, v) :: rest, chat, h =>
    if chat = k then (chat, h) :: rest else (k, v) :: dictInsert rest chat h

/-- Python negative slice `l[-n:]`: the last `n` elements for `n ≥ 1`, but the
whole list for `n = 0` (since `l[-0:]` is `l[0:]`). -/
def pySliceLast (l : List Turn) (n : Nat) : List Turn :=
  if n = 0 then l else l.drop (l.length - n)

/-- `get_conversation_history(chat_id)` (lines 70-76): seeds an absent chat
with the system turn, then returns the stored history.  Returns the history
together with the (possibly extended) dict. -/
def get_conversation_history (cfg : Config) (convs : Convs) (chat : Int) :
    List Turn × Convs :=
  match dictLookup convs chat with
  | none => ([systemTurn cfg], dictInsert convs chat [systemTurn cfg])
  | some h => (h, convs)

/-- `update_conversation_history(chat_id, role, content)` (lines 78-85).
The in-place `history.append(...)` mutates the list stored in the dict, so
the dict holds `history + [turn]` before the trim test; the trim reassigns
`conversations[chat_id] = [history[0]] + history[-MAX_HISTORY:]` (the list is
non-empty here, so `[history[0]]` is its one-element prefix). -/
def update_conversation_history (cfg : Config) (convs : Convs) (chat : Int)
    (role content : String) : Convs :=
  let got := get_conversation_history cfg convs chat
  let history2 := got.1 ++ [⟨role, content⟩]
  let convs2 := dictInsert got.2 chat history2
  if history2.length > cfg.MAX_HISTORY + 1 then
    dictInsert convs2 chat (history2.take 1 ++ pySliceLast history2 cfg.MAX_HISTORY)
  else
    convs2

/-- `clear_conversation_history(chat_id)` (lines 87-91). -/
def clear_conversation_history (cfg : Config) (convs : Convs) (chat : Int) :
    Convs :=
  dictInsert convs chat [systemTurn cfg]

/-- `message.content` of one choice of the completion response. -/
structure ChatMessage where
  content : String
deriving DecidableEq

/-- One element of `response.choices`. -/
structure Choice where
  message : ChatMessage
deriving DecidableEq

/-- The completion response: `response.choices` is a list of choices. -/
structure ApiResponse where
  choices : List Choice
deriving DecidableEq

/-- The literal fallback string returned by `generate_ai_response` on error. -/
def fallbackMessage : String :=
  "⚠️ Sorry, I\x27m having trouble thinking right now. Please try again later."

/-- `generate_ai_response(history)` (lines 93-105) over the outcome of the
awaited completion call.  A raised exception is modelled as `Except.error`;
the `except Exception` block also catches the `IndexError` of
`response.choices[0]` on an empty choice list, so that case falls back too. -/
def generate_ai_response (outcome : Except String ApiResponse) : String :=
  match outcome with
  | Except.ok response =>
    match response.choices with
    | choice :: _ => choice.message.content
    | [] => fallbackMessage
  | Except.error _ => fallbackMessage

/-- The observable effects of one `handle_message` run: the final
`conversations` dict, the chats that got a typing action, the reply texts
sent, and the histories passed to the completion call. -/
structure HandlerResult where
  convs : Convs
  typing : List Int
  replies : List String
  genCalls : List (List Turn)
deriving DecidableEq

/-- `handle_message` (lines 124-146).  The completion call is abstracted by
`oracle`, giving the outcome of `client.chat.completions.create` on the
history it is sent; `generate_ai_response` turns that outcome into the reply
text exactly as the source does. -/
def handle_message (cfg : Config) (adminUserId : Int)
    (oracle : List Turn → Except String ApiResponse) (convs : Convs)
    (chatId userId : Int) (text : String) : HandlerResult :=
  if cfg.RESPONDING_TO_OTHERS = false ∧ userId ≠ adminUserId then
    ⟨convs, [], [], []⟩
  else
    let convs1 := update_conversation_history cfg convs chatId "user" text
    let got := get_conversation_history cfg convs1 chatId
    let aiResponse := generate_ai_response (oracle got.1)
    let convs3 := update_conversation_history cfg got.2 chatId "assistant" aiResponse
    ⟨convs3, [chatId], [aiResponse], [got.1]⟩

/-- One operation on the history store, for stating invariants over
arbitrary operation sequences. -/
inductive HistOp where
  | get (chat : Int)
  | append (chat : Int) (role content : String)
  | reset (chat : Int)

/-- Run one history-store operation on the `conversations` dict. -/
def runOp (cfg : Config) (convs : Convs) : HistOp → Convs
  | HistOp.get chat => (get_conversation_history cfg convs chat).2
  | HistOp.append chat role content =>
    update_conversation_history cfg convs chat role content
  | HistOp.reset chat => clear_conversation_history cfg convs chat

/-- Run a sequence of history-store operations, left to right. -/
def runOps (cfg : Config) (convs : Convs) (ops : List HistOp) : Convs :=
  ops.foldl (runOp cfg) convs

/-- A sequence of appends to one chat, left to right. -/
def appendAll (cfg : Config) (convs : Convs) (chat : Int) (ts : List Turn) :
    Convs :=
  ts.foldl (fun s t => update_conversation_history cfg s chat t.role t.content) convs

/-! ### Derived definitions and concrete instances used in the statements below -/

/-- The history stored for a chat after one append, as a function of the
history `h0` the chat held before it (read off from lines 81-85). -/
def updatedHistory (cfg : Config) (h0 : List Turn) (role content : String) :
    List Turn :=
  let history2 := h0 ++ [⟨role, content⟩]
  if history2.length > cfg.MAX_HISTORY + 1 then
    history2.take 1 ++ pySliceLast history2 cfg.MAX_HISTORY
  else
    history2

/-- Every stored history starts with the pinned system turn. -/
def headIsSystem (cfg : Config) (s : Convs) : Prop :=
  ∀ chat h, dictLookup s chat = some h → h.head? = some (systemTurn cfg)

/-- Every stored history fits in the window plus the system turn. -/
def lenBounded (cfg : Config) (s : Convs) : Prop :=
  ∀ chat h, dictLookup s chat = some h → h.length ≤ cfg.MAX_HISTORY + 1

def sampleOps : List HistOp :=
  [HistOp.append 7 "user" "a", HistOp.append 7 "assistant" "b", HistOp.get 7,
   HistOp.append 7 "user" "c", HistOp.reset 8, HistOp.append 8 "user" "d"]

def cfgW3 : Config := ⟨CONFIG.SYSTEM_PROMPT, 3, true⟩

def traceTurns : List Turn :=
  [⟨"user", "a"⟩, ⟨"assistant", "b"⟩, ⟨"user", "c"⟩, ⟨"assistant", "d"⟩,
   ⟨"user", "e"⟩]

def cfgNoOthers : Config := ⟨CONFIG.SYSTEM_PROMPT, CONFIG.MAX_HISTORY, false⟩

def oracleOk : List Turn → Except String ApiResponse :=
  fun _ => Except.ok ⟨[⟨⟨"Hello!"⟩⟩]⟩

def oracleFail : List Turn → Except String ApiResponse :=
  fun _ => Except.error "boom"

/-! ### Dictionary lemmas -/

theorem dictLookup_dictInsert (s : Convs) (k : Int) (v : List Turn) (k' : Int) :
    dictLookup (dictInsert s k v) k' = if k' = k then some v else dictLookup s k' := by
  induction s with
  | nil => simp [dictInsert, dictLookup]
  | cons p rest ih =>
    obtain ⟨k0, v0⟩ := p
    by_cases hk : k = k0
    · subst hk
      by_cases hk' : k' = k <;> simp [dictInsert, dictLookup, hk']
    · by_cases hk' : k' = k0
      · subst hk'
        simp [dictInsert, dictLookup, hk, Ne.symm hk]
      · simp [dictInsert, dictLookup, hk, hk', ih]

theorem dictInsert_dictInsert (s : Convs) (k : Int) (v v' : List Turn) :
    dictInsert (dictInsert s k v) k v' = dictInsert s k v' := by
  induction s with
  | nil => simp [dictInsert]
  | cons p rest ih =>
    obtain ⟨k0, v0⟩ := p
    by_cases hk : k = k0 <;> simp [dictInsert, hk, ih]

/-! ### `get_conversation_history` lemmas -/

theorem get_eq_of_lookup_some (cfg : Config) (s : Convs) (chat : Int) (h : List Turn)
    (hl : dictLookup s chat = some h) :
    get_conversation_history cfg s chat = (h, s) := by
  unfold get_conversation_history
  rw [hl]

theorem get_eq_of_lookup_none (cfg : Config) (s : Convs) (chat : Int)
    (hl : dictLookup s chat = none) :
    get_conversation_history cfg s chat =
      ([systemTurn cfg], dictInsert s chat [systemTurn cfg]) := by
  unfold get_conversation_history
  rw [hl]

theorem dictLookup_get_snd (cfg : Config) (s : Convs) (chat k : Int) :
    dictLookup (get_conversation_history cfg s chat).2 k =
      if k = chat then some (get_conversation_history cfg s chat).1
      else dictLookup s k := by
  cases hl : dictLookup s chat with
  | none =>
      rw [get_eq_of_lookup_none cfg s chat hl]
      simp [dictLookup_dictInsert]
  | some h =>
      rw [get_eq_of_lookup_some cfg s chat h hl]
      by_cases hk : k = chat
      · subst hk
        simp [hl]
      · simp [hk]

/-! ### `update_conversation_history` characterization -/

theorem update_conversation_history_eq (cfg : Config) (s : Convs) (chat : Int)
    (role content : String) :
    update_conversation_history cfg s chat role content =
      dictInsert (get_conversation_history cfg s chat).2 chat
        (updatedHistory cfg (get_conversation_history cfg s chat).1 role content) := by
  unfold update_conversation_history updatedHistory
  dsimp only
  split_ifs with h1
  · rw [dictInsert_dictInsert]
  · rfl

theorem dictLookup_update (cfg : Config) (s : Convs) (chat : Int)
    (role content : String) (k : Int) :
    dictLookup (update_conversation_history cfg s chat role content) k =
      if k = chat then
        some (updatedHistory cfg (get_conversation_history cfg s chat).1 role content)
      else dictLookup s k := by
  rw [update_conversation_history_eq, dictLookup_dictInsert]
  by_cases hk : k = chat
  · simp [hk]
  · simp [hk, dictLookup_get_snd]

theorem dictLookup_update_self (cfg : Config) (s : Convs) (chat : Int)
    (role content : String) :
    dictLookup (update_conversation_history cfg s chat role content) chat =
      some (updatedHistory cfg (get_conversation_history cfg s chat).1 role content) := by
  rw [dictLookup_update]
  simp

theorem get_after_update (cfg : Config) (s : Convs) (chat : Int)
    (role content : String) :
    get_conversation_history cfg
        (update_conversation_history cfg s chat role content) chat =
      (updatedHistory cfg (get_conversation_history cfg s chat).1 role content,
       update_conversation_history cfg s chat role content) :=
  get_eq_of_lookup_some _ _ _ _ (dictLookup_update_self cfg s chat role content)

/-! ### Facts about `updatedHistory` -/

theorem updatedHistory_head (cfg : Config) (h0 : List Turn) (role content : String)
    (hne : h0 ≠ []) :
    (updatedHistory cfg h0 role content).head? = h0.head? := by
  obtain ⟨a, as, rfl⟩ := List.exists_cons_of_ne_nil hne
  unfold updatedHistory
  dsimp only
  split <;> simp

theorem updatedHistory_length (cfg : Config) (h0 : List Turn) (role content : String)
    (hW : 1 ≤ cfg.MAX_HISTORY) :
    (updatedHistory cfg h0 role content).length ≤ cfg.MAX_HISTORY + 1 := by
  unfold updatedHistory pySliceLast
  dsimp only
  split_ifs with h1 h2
  · omega
  · simp only [List.length_append, List.length_take, List.length_drop,
      List.length_singleton] at h1 ⊢
    omega
  · simp only [List.length_append, List.length_singleton] at h1 ⊢
    omega

theorem updatedHistory_getLast (cfg : Config) (h0 : List Turn) (role content : String) :
    (updatedHistory cfg h0 role content).getLast? = some ⟨role, content⟩ := by
  unfold updatedHistory pySliceLast
  dsimp only
  split_ifs with h1 h2
  · rw [← List.append_assoc]
    exact List.getLast?_concat _
  · rw [List.drop_append_eq_append_drop]
    rw [show (h0 ++ [(⟨role, content⟩ : Turn)]).length - cfg.MAX_HISTORY - h0.length = 0 by
      simp only [List.length_append, List.length_singleton]
      omega]
    rw [List.drop_zero, ← List.append_assoc]
    exact List.getLast?_concat _
  · exact List.getLast?_concat _

/-- Dropping at most the length of the left part of an append keeps every
element of the right part. -/
theorem mem_drop_append_right {k : Nat} {p l : List Turn} (hk : k ≤ p.length)
    {x : Turn} (hx : x ∈ l) : x ∈ (p ++ l).drop k := by
  rw [List.drop_append_eq_append_drop, Nat.sub_eq_zero_of_le hk, List.drop_zero]
  exact List.mem_append_right _ hx

/-- With a window of at least 2, the last turn of the previous history
survives the append (it is at worst second from the end afterwards). -/
theorem updatedHistory_mem_getLast (cfg : Config) (h0 : List Turn)
    (role content : String) (x : Turn) (hx : h0.getLast? = some x)
    (hW : 2 ≤ cfg.MAX_HISTORY) :
    x ∈ updatedHistory cfg h0 role content := by
  have hne : h0 ≠ [] := by
    intro h
    rw [h] at hx
    simp at hx
  have hsplit : h0.dropLast ++ [x] = h0 := by
    have h1 := List.dropLast_append_getLast hne
    have h2 : h0.getLast hne = x := by
      rw [List.getLast?_eq_getLast h0 hne] at hx
      exact Option.some_inj.mp hx
    rw [h2] at h1
    exact h1
  unfold updatedHistory pySliceLast
  dsimp only
  split_ifs with h1 h2
  · exact absurd hW (by omega)
  · apply List.mem_append_right
    rw [← hsplit, List.append_assoc]
    apply mem_drop_append_right
    · simp only [List.length_append, List.length_cons, List.length_nil]
      omega
    · simp
  · apply List.mem_append_left
    rw [← hsplit]
    exact List.mem_append_right _ (by simp)

/-- One append on a history `system :: ds` with `ds` within the window:
the result keeps the pinned system turn and the last `MAX_HISTORY` of the
non-system turns `ds ++ [new]`. -/
theorem updatedHistory_cons_system (cfg : Config) (ds : List Turn)
    (role content : String) (hW : 1 ≤ cfg.MAX_HISTORY) :
    updatedHistory cfg (systemTurn cfg :: ds) role content =
      systemTurn cfg ::
        ((ds ++ [(⟨role, content⟩ : Turn)]).drop (ds.length + 1 - cfg.MAX_HISTORY)) := by
  unfold updatedHistory pySliceLast
  dsimp only
  simp only [List.cons_append]
  split_ifs with h1 h2
  · exact absurd hW (by omega)
  · simp only [List.length_cons, List.length_append, List.length_nil] at h1
    rw [show (systemTurn cfg :: (ds ++ [(⟨role, content⟩ : Turn)])).length - cfg.MAX_HISTORY
        = (ds.length + 1 - cfg.MAX_HISTORY) + 1 by
      simp only [List.length_cons, List.length_append, List.length_nil]
      omega]
    rw [List.drop_succ_cons]
    simp
  · simp only [List.length_cons, List.length_append, List.length_nil] at h1
    rw [show ds.length + 1 - cfg.MAX_HISTORY = 0 by omega, List.drop_zero]

/-! ### Store-wide invariants -/

theorem headIsSystem_empty (cfg : Config) : headIsSystem cfg [] := by
  intro chat h hl
  simp [dictLookup] at hl

theorem lenBounded_empty (cfg : Config) : lenBounded cfg [] := by
  intro chat h hl
  simp [dictLookup] at hl

theorem get_fst_head (cfg : Config) (s : Convs) (chat : Int)
    (hs : headIsSystem cfg s) :
    (get_conversation_history cfg s chat).1.head? = some (systemTurn cfg) := by
  cases hl : dictLookup s chat with
  | none =>
      rw [get_eq_of_lookup_none cfg s chat hl]
      rfl
  | some h =>
      rw [get_eq_of_lookup_some cfg s chat h hl]
      exact hs chat h hl

theorem get_fst_ne_nil (cfg : Config) (s : Convs) (chat : Int)
    (hs : headIsSystem cfg s) :
    (get_conversation_history cfg s chat).1 ≠ [] := by
  intro hnil
  have := get_fst_head cfg s chat hs
  rw [hnil] at this
  simp at this

theorem headIsSystem_runOp (cfg : Config) (s : Convs) (op : HistOp)
    (hs : headIsSystem cfg s) : headIsSystem cfg (runOp cfg s op) := by
  cases op with
  | get chat =>
      intro k h hl
      rw [runOp, dictLookup_get_snd] at hl
      by_cases hk : k = chat
      · rw [if_pos hk] at hl
        cases hl
        exact get_fst_head cfg s chat hs
      · rw [if_neg hk] at hl
        exact hs k h hl
  | append chat role content =>
      intro k h hl
      rw [runOp, dictLookup_update] at hl
      by_cases hk : k = chat
      · rw [if_pos hk] at hl
        cases hl
        rw [updatedHistory_head cfg _ role content (get_fst_ne_nil cfg s chat hs)]
        exact get_fst_head cfg s chat hs
      · rw [if_neg hk] at hl
        exact hs k h hl
  | reset chat =>
      intro k h hl
      rw [runOp, clear_conversation_history, dictLookup_dictInsert] at hl
      by_cases hk : k = chat
      · rw [if_pos hk] at hl
        cases hl
        rfl
      · rw [if_neg hk] at hl
        exact hs k h hl

theorem lenBounded_runOp (cfg : Config) (s : Convs) (op : HistOp)
    (hW : 1 ≤ cfg.MAX_HISTORY) (hs : lenBounded cfg s) :
    lenBounded cfg (runOp cfg s op) := by
  cases op with
  | get chat =>
      intro k h hl
      rw [runOp, dictLookup_get_snd] at hl
      by_cases hk : k = chat
      · rw [if_pos hk] at hl
        cases hl
        cases hl2 : dictLookup s chat with
        | none =>
            rw [get_eq_of_lookup_none cfg s chat hl2]
            simp
        | some h0 =>
            rw [get_eq_of_lookup_some cfg s chat h0 hl2]
            exact hs chat h0 hl2
      · rw [if_neg hk] at hl
        exact hs k h hl
  | append chat role content =>
      intro k h hl
      rw [runOp, dictLookup_update] at hl
      by_cases hk : k = chat
      · rw [if_pos hk] at hl
        cases hl
        exact updatedHistory_length cfg _ role content hW
      · rw [if_neg hk] at hl
        exact hs k h hl
  | reset chat =>
      intro k h hl
      rw [runOp, clear_conversation_history, dictLookup_dictInsert] at hl
      by_cases hk : k = chat
      · rw [if_pos hk] at hl
        cases hl
        simp
      · rw [if_neg hk] at hl
        exact hs k h hl

theorem headIsSystem_runOps (cfg : Config) (ops : List HistOp) (s : Convs)
    (hs : headIsSystem cfg s) : headIsSystem cfg (runOps cfg s ops) := by
  induction ops generalizing s with
  | nil => exact hs
  | cons op rest ih =>
      exact ih (runOp cfg s op) (headIsSystem_runOp cfg s op hs)

theorem lenBounded_runOps (cfg : Config) (ops : List HistOp) (s : Convs)
    (hW : 1 ≤ cfg.MAX_HISTORY) (hs : lenBounded cfg s) :
    lenBounded cfg (runOps cfg s ops) := by
  induction ops generalizing s with
  | nil => exact hs
  | cons op rest ih =>
      exact ih (runOp cfg s op) (lenBounded_runOp cfg s op hW hs)

theorem appendAll_spec (cfg : Config) (chat : Int) (hW : 1 ≤ cfg.MAX_HISTORY)
    (ts : List Turn) : ∀ (s0 : Convs) (ds0 : List Turn),
    dictLookup s0 chat = some (systemTurn cfg :: ds0) →
    ds0.length ≤ cfg.MAX_HISTORY →
    dictLookup (appendAll cfg s0 chat ts) chat =
      some (systemTurn cfg ::
        ((ds0 ++ ts).drop ((ds0 ++ ts).length - cfg.MAX_HISTORY))) := by
  induction ts with
  | nil =>
      intro s0 ds0 h0 hlen
      simp only [appendAll, List.foldl_nil, List.append_nil]
      rw [h0, show ds0.length - cfg.MAX_HISTORY = 0 by omega, List.drop_zero]
  | cons t ts' ih =>
      intro s0 ds0 h0 hlen
      have hstep : appendAll cfg s0 chat (t :: ts') =
          appendAll cfg (update_conversation_history cfg s0 chat t.role t.content)
            chat ts' := rfl
      rw [hstep]
      have hget : get_conversation_history cfg s0 chat = (systemTurn cfg :: ds0, s0) :=
        get_eq_of_lookup_some cfg s0 chat _ h0
      have hlook : dictLookup
          (update_conversation_history cfg s0 chat t.role t.content) chat =
          some (systemTurn cfg ::
            ((ds0 ++ [t]).drop (ds0.length + 1 - cfg.MAX_HISTORY))) := by
        rw [dictLookup_update_self, hget]
        rw [show ((systemTurn cfg :: ds0, s0) : List Turn × Convs).1 =
            systemTurn cfg :: ds0 from rfl]
        rw [updatedHistory_cons_system cfg ds0 t.role t.content hW]
      have hlen1 :
          ((ds0 ++ [t]).drop (ds0.length + 1 - cfg.MAX_HISTORY)).length ≤
            cfg.MAX_HISTORY := by
        simp only [List.length_drop, List.length_append, List.length_cons,
          List.length_nil]
        omega
      rw [ih _ _ hlook hlen1]
      have hk : ds0.length + 1 - cfg.MAX_HISTORY ≤ (ds0 ++ [t]).length := by
        simp only [List.length_append, List.length_cons, List.length_nil]
        omega
      have e1 : (ds0 ++ [t]).drop (ds0.length + 1 - cfg.MAX_HISTORY) ++ ts' =
          ((ds0 ++ [t]) ++ ts').drop (ds0.length + 1 - cfg.MAX_HISTORY) :=
        (List.drop_append_of_le_length hk).symm
      rw [e1]
      have e2 : ((ds0 ++ [t]) ++ ts') = ds0 ++ t :: ts' := by simp
      rw [e2, List.drop_drop]
      congr 2
      simp only [List.length_drop, List.length_append, List.length_cons,
        List.length_nil]
      congr 1
      omega

/-! ### `handle_message` on the processed path -/

theorem handle_message_processed (cfg : Config) (adminUserId : Int)
    (oracle : List Turn → Except String ApiResponse) (convs : Convs)
    (chatId userId : Int) (text : String)
    (hflag : cfg.RESPONDING_TO_OTHERS = true) :
    handle_message cfg adminUserId oracle convs chatId userId text =
      ⟨update_conversation_history cfg
          (update_conversation_history cfg convs chatId "user" text) chatId
          "assistant"
          (generate_ai_response (oracle
            (get_conversation_history cfg
              (update_conversation_history cfg convs chatId "user" text) chatId).1)),
        [chatId],
        [generate_ai_response (oracle
          (get_conversation_history cfg
            (update_conversation_history cfg convs chatId "user" text) chatId).1)],
        [(get_conversation_history cfg
            (update_conversation_history cfg convs chatId "user" text) chatId).1]⟩ := by
  unfold handle_message
  rw [if_neg (by simp [hflag])]
  dsimp only
  rw [show (get_conversation_history cfg
      (update_conversation_history cfg convs chatId "user" text) chatId).2 =
      update_conversation_history cfg convs chatId "user" text by
    rw [get_after_update]]

/-! ### Claim theorems -/

/-- C1: for every chat identifier and every sequence of history-store
operations (in particular appends via `update_conversation_history`), the
length of every chat's stored history is at most the configured
`MAX_HISTORY` plus 1 (the pinned system turn). -/
theorem C1_append_length_bound (cfg : Config) (hW : 1 ≤ cfg.MAX_HISTORY)
    (ops : List HistOp) (chat : Int) :
    ((dictLookup (runOps cfg [] ops) chat).getD []).length ≤
      cfg.MAX_HISTORY + 1 := by
  cases hl : dictLookup (runOps cfg [] ops) chat with
  | none => simp
  | some h =>
      have hb :=
        lenBounded_runOps cfg ops [] hW (lenBounded_empty cfg) chat h hl
      simpa using hb

theorem C1_append_length_bound_witness :
    ((dictLookup (runOps CONFIG [] sampleOps) 7).getD []).length ≤
      CONFIG.MAX_HISTORY + 1 :=
  C1_append_length_bound CONFIG (by decide) sampleOps 7

/-- C2: after any sequence of get, append, and reset operations, the first
element of the history returned by `get_conversation_history` is the system
turn holding the configured system prompt. -/
theorem C2_system_turn_pinned (cfg : Config) (ops : List HistOp) (chat : Int) :
    (get_conversation_history cfg (runOps cfg [] ops) chat).1.head? =
      some (systemTurn cfg) :=
  get_fst_head cfg (runOps cfg [] ops) chat
    (headIsSystem_runOps cfg ops [] (headIsSystem_empty cfg))

/-- C3: eviction is FIFO over non-system turns with the system turn pinned:
after more than `MAX_HISTORY` appends to a chat, the stored history is the
system turn followed by exactly the `MAX_HISTORY` most recently appended
turns in their original relative order. -/
theorem C3_eviction_fifo (cfg : Config) (chat : Int) (ts : List Turn)
    (hW : 1 ≤ cfg.MAX_HISTORY) (hmore : cfg.MAX_HISTORY < ts.length) :
    dictLookup (appendAll cfg [] chat ts) chat =
      some (systemTurn cfg :: ts.drop (ts.length - cfg.MAX_HISTORY)) := by
  cases ts with
  | nil => simp at hmore
  | cons t ts' =>
      have hstep : appendAll cfg [] chat (t :: ts') =
          appendAll cfg (update_conversation_history cfg [] chat t.role t.content)
            chat ts' := rfl
      rw [hstep]
      have hget : get_conversation_history cfg [] chat =
          ([systemTurn cfg], dictInsert [] chat [systemTurn cfg]) :=
        get_eq_of_lookup_none cfg [] chat rfl
      have hupd : updatedHistory cfg [systemTurn cfg] t.role t.content =
          [systemTurn cfg, t] := by
        unfold updatedHistory
        dsimp only
        rw [if_neg (by simp; omega)]
        rfl
      have hlook : dictLookup
          (update_conversation_history cfg [] chat t.role t.content) chat =
          some (systemTurn cfg :: [t]) := by
        rw [dictLookup_update_self, hget]
        dsimp only
        rw [hupd]
      have hfin := appendAll_spec cfg chat hW ts' _ [t] hlook (by simp; omega)
      rw [hfin]
      rfl

theorem C3_eviction_fifo_witness :
    dictLookup (appendAll cfgW3 [] 1 traceTurns) 1 =
      some [systemTurn cfgW3, ⟨"user", "c"⟩, ⟨"assistant", "d"⟩,
        ⟨"user", "e"⟩] :=
  (C3_eviction_fifo cfgW3 1 traceTurns (by decide) (by decide)).trans (by decide)

/-- C4: if the completion call raises any exception, `generate_ai_response`
returns the fixed fallback string instead of propagating the error; on
success it returns the content of the first choice message. -/
theorem C4_generate_fail_soft :
    (∀ err : String, generate_ai_response (Except.error err) = fallbackMessage) ∧
    (∀ (response : ApiResponse) (choice : Choice) (rest : List Choice),
      response.choices = choice :: rest →
      generate_ai_response (Except.ok response) = choice.message.content) := by
  constructor
  · intro err
    rfl
  · intro response choice rest h
    obtain ⟨choices⟩ := response
    cases h
    rfl

theorem C4_generate_fail_soft_witness :
    generate_ai_response (Except.error "connection timeout") = fallbackMessage ∧
    generate_ai_response (Except.ok ⟨[⟨⟨"All good."⟩⟩]⟩) = "All good." :=
  ⟨C4_generate_fail_soft.1 "connection timeout",
   C4_generate_fail_soft.2 ⟨[⟨⟨"All good."⟩⟩]⟩ ⟨⟨"All good."⟩⟩ [] rfl⟩

/-- C5: if the respond-to-others flag is false and the sender is not the
administrator, `handle_message` performs no append and sends no reply (the
conversations dict and all effect lists are untouched); if the flag is true
the message is processed normally: user append, generation on the read-back
history, assistant append, and one reply. -/
theorem C5_admin_gate (cfg : Config) (adminUserId : Int)
    (oracle : List Turn → Except String ApiResponse) (convs : Convs)
    (chatId userId : Int) (text : String) :
    (cfg.RESPONDING_TO_OTHERS = false → userId ≠ adminUserId →
      handle_message cfg adminUserId oracle convs chatId userId text =
        ⟨convs, [], [], []⟩) ∧
    (cfg.RESPONDING_TO_OTHERS = true →
      handle_message cfg adminUserId oracle convs chatId userId text =
        ⟨update_conversation_history cfg
            (update_conversation_history cfg convs chatId "user" text) chatId
            "assistant"
            (generate_ai_response (oracle
              (get_conversation_history cfg
                (update_conversation_history cfg convs chatId "user" text)
                chatId).1)),
          [chatId],
          [generate_ai_response (oracle
            (get_conversation_history cfg
              (update_conversation_history cfg convs chatId "user" text)
              chatId).1)],
          [(get_conversation_history cfg
              (update_conversation_history cfg convs chatId "user" text)
              chatId).1]⟩) := by
  constructor
  · intro hflag hne
    unfold handle_message
    rw [if_pos ⟨hflag, hne⟩]
  · intro hflag
    exact handle_message_processed cfg adminUserId oracle convs chatId userId
      text hflag

theorem C5_admin_gate_witness :
    handle_message cfgNoOthers 99 oracleOk [] 5 42 "hi" = ⟨[], [], [], []⟩ ∧
    handle_message CONFIG 99 oracleOk [] 5 42 "hi" =
      ⟨[(5, [systemTurn CONFIG, ⟨"user", "hi"⟩, ⟨"assistant", "Hello!"⟩])],
        [5], ["Hello!"], [[systemTurn CONFIG, ⟨"user", "hi"⟩]]⟩ :=
  ⟨(C5_admin_gate cfgNoOthers 99 oracleOk [] 5 42 "hi").1 rfl (by decide),
   ((C5_admin_gate CONFIG 99 oracleOk [] 5 42 "hi").2 rfl).trans (by decide)⟩

/-- C6: reset followed by get yields exactly the one-element seed sequence
holding the system turn, irrespective of the history before the reset. -/
theorem C6_reset_then_get (cfg : Config) (convs : Convs) (chat : Int) :
    get_conversation_history cfg (clear_conversation_history cfg convs chat)
        chat =
      ([systemTurn cfg], clear_conversation_history cfg convs chat) := by
  apply get_eq_of_lookup_some
  unfold clear_conversation_history
  rw [dictLookup_dictInsert]
  simp

/-- C7: `get_conversation_history` never fails: an absent chat is initialized
with the pinned system turn, and repeated gets without intervening append or
reset return the same unchanged history and state. -/
theorem C7_get_total_idempotent (cfg : Config) (convs : Convs) (chat : Int) :
    (dictLookup convs chat = none →
      get_conversation_history cfg convs chat =
        ([systemTurn cfg], dictInsert convs chat [systemTurn cfg])) ∧
    get_conversation_history cfg (get_conversation_history cfg convs chat).2
        chat =
      get_conversation_history cfg convs chat := by
  constructor
  · intro hl
    exact get_eq_of_lookup_none cfg convs chat hl
  · cases hl : dictLookup convs chat with
    | none =>
        have h2 : dictLookup (dictInsert convs chat [systemTurn cfg]) chat =
            some [systemTurn cfg] := by
          rw [dictLookup_dictInsert]
          simp
        rw [get_eq_of_lookup_none cfg convs chat hl]
        exact get_eq_of_lookup_some cfg _ chat _ h2
    | some h =>
        rw [get_eq_of_lookup_some cfg convs chat h hl]
        exact get_eq_of_lookup_some cfg convs chat h hl

theorem C7_get_total_idempotent_witness :
    get_conversation_history CONFIG [] 5 =
      ([systemTurn CONFIG], dictInsert [] 5 [systemTurn CONFIG]) ∧
    get_conversation_history CONFIG (get_conversation_history CONFIG [] 5).2
        5 =
      get_conversation_history CONFIG [] 5 :=
  ⟨(C7_get_total_idempotent CONFIG [] 5).1 rfl,
   (C7_get_total_idempotent CONFIG [] 5).2⟩

/-- C9: when the completion service fails, `handle_message` still appends the
fallback string as an assistant turn (it becomes the last stored turn of the
chat) and, with a window of at least 2, that fallback turn is part of the
history passed to the completion service on the next message. -/
theorem C9_fallback_occupies_window (cfg : Config) (adminUserId : Int)
    (oracle : List Turn → Except String ApiResponse) (convs : Convs)
    (chatId userId : Int) (text1 text2 err : String)
    (hflag : cfg.RESPONDING_TO_OTHERS = true) (hW : 2 ≤ cfg.MAX_HISTORY)
    (hfail : ∀ h, oracle h = Except.error err) :
    (((dictLookup
        (handle_message cfg adminUserId oracle convs chatId userId text1).convs
        chatId).getD []).getLast? =
      some ⟨"assistant", fallbackMessage⟩) ∧
    ((handle_message cfg adminUserId oracle
        (handle_message cfg adminUserId oracle convs chatId userId text1).convs
        chatId userId text2).genCalls ≠ []) ∧
    (∀ h2 ∈ (handle_message cfg adminUserId oracle
        (handle_message cfg adminUserId oracle convs chatId userId text1).convs
        chatId userId text2).genCalls,
      (⟨"assistant", fallbackMessage⟩ : Turn) ∈ h2) := by
  have hr1 : (handle_message cfg adminUserId oracle convs chatId userId
      text1).convs =
      update_conversation_history cfg
        (update_conversation_history cfg convs chatId "user" text1) chatId
        "assistant" fallbackMessage := by
    rw [handle_message_processed cfg adminUserId oracle convs chatId userId
      text1 hflag, hfail]
    rfl
  have hH1 : dictLookup
      (update_conversation_history cfg
        (update_conversation_history cfg convs chatId "user" text1) chatId
        "assistant" fallbackMessage) chatId =
      some (updatedHistory cfg
        (get_conversation_history cfg
          (update_conversation_history cfg convs chatId "user" text1)
          chatId).1 "assistant" fallbackMessage) :=
    dictLookup_update_self cfg _ chatId "assistant" fallbackMessage
  have hr2 : (handle_message cfg adminUserId oracle
      (handle_message cfg adminUserId oracle convs chatId userId text1).convs
      chatId userId text2).genCalls =
      [updatedHistory cfg
        (updatedHistory cfg
          (get_conversation_history cfg
            (update_conversation_history cfg convs chatId "user" text1)
            chatId).1 "assistant" fallbackMessage) "user" text2] := by
    rw [hr1, handle_message_processed cfg adminUserId oracle _ chatId userId
      text2 hflag]
    dsimp only
    rw [get_after_update]
    dsimp only
    rw [get_after_update]
  refine ⟨?_, ?_, ?_⟩
  · rw [hr1, hH1]
    simp only [Option.getD_some]
    exact updatedHistory_getLast cfg _ "assistant" fallbackMessage
  · rw [hr2]
    simp
  · rw [hr2]
    intro h2 hmem
    rw [List.mem_singleton] at hmem
    subst hmem
    exact updatedHistory_mem_getLast cfg _ "user" text2 _
      (updatedHistory_getLast cfg _ "assistant" fallbackMessage) hW

theorem C9_fallback_occupies_window_witness :
    (((dictLookup (handle_message CONFIG 99 oracleFail [] 5 42 "hi").convs
        5).getD []).getLast? = some ⟨"assistant", fallbackMessage⟩) ∧
    ((handle_message CONFIG 99 oracleFail
        (handle_message CONFIG 99 oracleFail [] 5 42 "hi").convs 5 42
        "again").genCalls ≠ []) ∧
    (∀ h2 ∈ (handle_message CONFIG 99 oracleFail
        (handle_message CONFIG 99 oracleFail [] 5 42 "hi").convs 5 42
        "again").genCalls,
      (⟨"assistant", fallbackMessage⟩ : Turn) ∈ h2) :=
  C9_fallback_occupies_window CONFIG 99 oracleFail [] 5 42 "hi" "again" "boom"
    rfl (by decide) (fun _ => rfl)

/-- C10: an append to a never-seen chat identifier does not fail: the entry
is first seeded with the system turn, so the resulting history is exactly
the system turn followed by the appended turn. -/
theorem C10_append_unseen_chat (cfg : Config) (convs : Convs) (chat : Int)
    (role content : String) (habs : dictLookup convs chat = none)
    (hW : 1 ≤ cfg.MAX_HISTORY) :
    dictLookup (update_conversation_history cfg convs chat role content)
        chat =
      some [systemTurn cfg, ⟨role, content⟩] := by
  rw [dictLookup_update_self, get_eq_of_lookup_none cfg convs chat habs]
  dsimp only
  rw [updatedHistory_cons_system cfg [] role content hW]
  simp only [List.nil_append, List.length_nil]
  rw [show 0 + 1 - cfg.MAX_HISTORY = 0 by omega, List.drop_zero]

theorem C10_append_unseen_chat_witness :
    dictLookup (update_conversation_history CONFIG [] 5 "user" "first") 5 =
      some [systemTurn CONFIG, ⟨"user", "first"⟩] :=
  C10_append_unseen_chat CONFIG [] 5 "user" "first" rfl (by decide)
